import Mathlib

/-!
Verification of the river-profile clustering pipeline
(`plot-river-clusters.py` of UP-RS-ESP/river-clusters).

The numeric code is embedded shallowly: dataframes become lists of
records, numpy arrays become `List ℚ`, NaN/missing values become
`Option`, and Python's slicing / `searchsorted` / in-place `.loc`
assignment are modelled by explicit Lean functions whose semantics
follow the Python (2.x) behaviour of the source.
-/

namespace RiverClusters

/-- One row of the river-profile table
(`id, distance_from_source, elevation, drainage_areas, slope, cluster_id`).
A missing/NaN slope is `none`; an unassigned `cluster_id` is `none`. -/
structure Row where
  id : ℕ
  dist : ℚ
  elev : ℚ
  area : ℚ
  slope : Option ℚ
  cluster : Option ℕ
deriving DecidableEq, Repr

/-- Python index normalisation for slice bounds on a sequence of length `n`:
a negative index counts from the end (clamped at 0), a non-negative one is
clamped at `n`. -/
def pyIdx (n : ℕ) (a : Int) : ℕ :=
  if a < 0 then ((n : Int) + a).toNat else min a.toNat n

/-- Python slice `l[a:b]` (step 1), with Python's negative-index and
clamping semantics. -/
def pySlice (l : List α) (a b : Int) : List α :=
  (l.drop (pyIdx l.length a)).take (pyIdx l.length b - pyIdx l.length a)

theorem pySlice_length (l : List α) (a b : Int) :
    (pySlice l a b).length =
      min (pyIdx l.length b - pyIdx l.length a) (l.length - pyIdx l.length a) := by
  simp [pySlice]

theorem pyIdx_le (n : ℕ) (a : Int) : pyIdx n a ≤ n := by
  unfold pyIdx
  split
  · omega
  · omega

/-- Absolute value on `ℚ`, written out so that it evaluates by kernel
reduction (`abs(slope)`, source line 226). -/
def pyAbs (q : ℚ) : ℚ := if q < 0 then -q else q

theorem pyAbs_eq_abs (q : ℚ) : pyAbs q = |q| := by
  unfold pyAbs
  split
  · exact (abs_of_neg (by assumption)).symm
  · exact (abs_of_nonneg (le_of_not_lt (by assumption))).symm

/-- Gradient of the ordinary least-squares line through a list of
`(x, y)` points: `(n·Σxy − Σx·Σy) / (n·Σx² − (Σx)²)`.  This is the
slope returned by `scipy.stats.linregress` (line 225 of the source);
a degenerate denominator yields `0` (division by zero in `ℚ`). -/
def linregressSlope (pts : List (ℚ × ℚ)) : ℚ :=
  let n : ℚ := pts.length
  let sx := (pts.map Prod.fst).sum
  let sy := (pts.map Prod.snd).sum
  let sxy := (pts.map fun p => p.1 * p.2).sum
  let sxx := (pts.map fun p => p.1 * p.1).sum
  (n * sxy - sx * sy) / (n * sxx - sx * sx)

/-- Slope assigned by `CalculateSlope` (source lines 215–229) to the node at
index `i` of a profile with `(distance, elevation)` points `pts`:
`slicer = (W−1)/2` (Python 2 floor division), `this_slice =
pts_array[i−slicer : i+slicer+1]`, and the regression runs only when
`len(this_slice) == W`, otherwise the slope is NaN (`none`). -/
def calculateSlopeAt (pts : List (ℚ × ℚ)) (W i : ℕ) : Option ℚ :=
  if (pySlice pts ((i : Int) - ((W - 1) / 2 : ℕ)) ((i : Int) + ((W - 1) / 2 : ℕ) + 1)).length = W
  then some (pyAbs (linregressSlope (pySlice pts ((i : Int) - ((W - 1) / 2 : ℕ)) ((i : Int) + ((W - 1) / 2 : ℕ) + 1))))
  else none

/-- The whole slope column for one profile: one entry per node
(`for index, x in enumerate(pts_array)`, source line 217). -/
def calculateSlopeProfile (pts : List (ℚ × ℚ)) (W : ℕ) : List (Option ℚ) :=
  (List.range pts.length).map (calculateSlopeAt pts W)

example : calculateSlopeProfile [(0, 0), (1, 5), (2, 9)] 3 =
    [none, some (9/2), none] := by
  norm_num [calculateSlopeProfile, calculateSlopeAt, pySlice, pyIdx, pyAbs,
    linregressSlope, List.range_succ, show Int.toNat 3 = 3 from rfl]

example : calculateSlopeProfile [(0, 0), (1, 5), (2, 9)] 4 =
    [none, none, none] := by
  norm_num [calculateSlopeProfile, calculateSlopeAt, pySlice, pyIdx,
    List.range_succ, show Int.toNat 3 = 3 from rfl]

theorem pyIdx_of_neg (n : ℕ) (a : Int) (h : a < 0) :
    pyIdx n a = ((n : Int) + a).toNat := if_pos h

theorem pyIdx_of_nonneg (n : ℕ) (a : Int) (h : 0 ≤ a) :
    pyIdx n a = min a.toNat n := if_neg (not_lt.2 h)

theorem calculateSlopeAt_eq_none (pts : List (ℚ × ℚ)) (W i : ℕ)
    (h : (pySlice pts ((i : Int) - ((W - 1) / 2 : ℕ)) ((i : Int) + ((W - 1) / 2 : ℕ) + 1)).length ≠ W) :
    calculateSlopeAt pts W i = none := by
  unfold calculateSlopeAt
  rw [if_neg h]

/-- Claim C1 (amended, proved): for an odd window size `W`, at every node whose
symmetric window `[i − (W−1)/2, i + (W−1)/2]` lies fully inside the profile,
`CalculateSlope` produces exactly the absolute value of the ordinary
least-squares gradient fitted through the `(distance, elevation)` pairs of
that window. -/
theorem calculateSlope_interior_ols (pts : List (ℚ × ℚ)) (W i : ℕ)
    (hodd : W % 2 = 1) (h1 : (W - 1) / 2 ≤ i) (h2 : i + (W - 1) / 2 + 1 ≤ pts.length) :
    calculateSlopeAt pts W i =
      some |linregressSlope ((pts.drop (i - (W - 1) / 2)).take W)| := by
  have hin : i < pts.length := by omega
  have hslice : pySlice pts ((i : Int) - ((W - 1) / 2 : ℕ)) ((i : Int) + ((W - 1) / 2 : ℕ) + 1)
      = (pts.drop (i - (W - 1) / 2)).take W := by
    unfold pySlice
    rw [pyIdx_of_nonneg _ _ (by omega), pyIdx_of_nonneg _ _ (by omega)]
    have e1 : min ((i : Int) - ((W - 1) / 2 : ℕ)).toNat pts.length = i - (W - 1) / 2 := by
      omega
    have e2 : min ((i : Int) + ((W - 1) / 2 : ℕ) + 1).toNat pts.length = i + (W - 1) / 2 + 1 := by
      omega
    rw [e1, e2]
    congr 1
    omega
  have hlen : ((pts.drop (i - (W - 1) / 2)).take W).length = W := by
    simp only [List.length_take, List.length_drop]
    omega
  unfold calculateSlopeAt
  rw [hslice, if_pos hlen, pyAbs_eq_abs]

/-- Profile used in concrete checks for the slope estimator. -/
def c1pts : List (ℚ × ℚ) := [(0, 0), (1, 5), (2, 9)]

/-- Claim C1 (counterexample): with the even window size `W = 4` the symmetric
window of node `1` of `c1pts` is fully interior, yet `CalculateSlope`
returns NaN instead of the least-squares gradient of that window, because
the two-sided slice holds only `W − 1 = 3` points and the source demands
exactly `W`. -/
theorem calculateSlope_even_window_cex :
    ((4 - 1) / 2 ≤ 1 ∧ 1 + (4 - 1) / 2 + 1 ≤ c1pts.length) ∧
    calculateSlopeAt c1pts 4 1 = none ∧
    calculateSlopeAt c1pts 4 1 ≠
      some |linregressSlope ((c1pts.drop (1 - (4 - 1) / 2)).take (2 * ((4 - 1) / 2) + 1))| := by
  have hnone : calculateSlopeAt c1pts 4 1 = none := by
    norm_num [calculateSlopeAt, pySlice, pyIdx, c1pts, show Int.toNat 3 = 3 from rfl]
  exact ⟨⟨by norm_num, by norm_num [c1pts]⟩, hnone, by rw [hnone]; simp⟩

/-- Witness for `C1`: window size `3` at the middle node of `c1pts`. -/
theorem calculateSlope_interior_ols_witness :
    3 % 2 = 1 ∧
    calculateSlopeAt c1pts 3 1 =
      some |linregressSlope ((c1pts.drop (1 - (3 - 1) / 2)).take 3)| :=
  ⟨by norm_num,
   calculateSlope_interior_ols c1pts 3 1 (by norm_num) (by norm_num)
     (by norm_num [c1pts])⟩

/-- Claim C4 (proved): a node whose symmetric window sticks out of the profile's
index range gets a NaN slope (no extrapolation), and a profile with fewer
than `W` samples gets NaN at every node. -/
theorem calculateSlope_edge_nan (pts : List (ℚ × ℚ)) (W i : ℕ) (hW : 1 ≤ W) :
    (i < pts.length → ¬((W - 1) / 2 ≤ i ∧ i + (W - 1) / 2 + 1 ≤ pts.length) →
      calculateSlopeAt pts W i = none) ∧
    (pts.length < W → i < pts.length → calculateSlopeAt pts W i = none) := by
  have hb : pyIdx pts.length ((i : Int) + ((W - 1) / 2 : ℕ) + 1)
      = min (i + (W - 1) / 2 + 1) pts.length := by
    rw [pyIdx_of_nonneg _ _ (by omega)]
    omega
  constructor
  · intro hi hout
    apply calculateSlopeAt_eq_none
    rw [pySlice_length, hb]
    by_cases hneg : (i : Int) - ((W - 1) / 2 : ℕ) < 0
    · rw [pyIdx_of_neg _ _ hneg]
      omega
    · rw [pyIdx_of_nonneg _ _ (by omega)]
      omega
  · intro hn hi
    apply calculateSlopeAt_eq_none
    rw [pySlice_length, hb]
    by_cases hneg : (i : Int) - ((W - 1) / 2 : ℕ) < 0
    · rw [pyIdx_of_neg _ _ hneg]
      omega
    · rw [pyIdx_of_nonneg _ _ (by omega)]
      omega

/-- Witness for `C4`: the left edge node of `c1pts` with window size `3`. -/
theorem calculateSlope_edge_nan_witness :
    1 ≤ 3 ∧ calculateSlopeAt c1pts 3 0 = none :=
  ⟨by norm_num,
   (calculateSlope_edge_nan c1pts 3 0 (by norm_num)).1 (by norm_num [c1pts])
     (by norm_num [c1pts])⟩

/-- Model of `np.searchsorted(array, value, side="left")` (source line 63).  On a
sorted array the binary search returns the first index whose element is
`≥ value` (equivalently the insertion point keeping the array sorted),
which is what this linear formulation computes. -/
def searchsortedLeft (array : List ℚ) (value : ℚ) : ℕ :=
  array.findIdx (fun x => decide (value ≤ x))

/-- Function `find_nearest_idx` (source lines 57–67): index of the sample closest to
`value`, implemented via `searchsorted` plus a one-step comparison with the
left neighbour (`math.fabs` distances, strict `<`). -/
def find_nearest_idx (array : List ℚ) (value : ℚ) : ℕ :=
  let idx := searchsortedLeft array value
  if 0 < idx ∧ (idx = array.length ∨
      |value - array.getD (idx - 1) 0| < |value - array.getD idx 0|)
  then idx - 1 else idx

/-- Claim C5 (counterexample): the query `1` is exactly equidistant from the two
adjacent samples `0` and `2`, and `find_nearest_idx` returns the upper
index `1`, not the lower index `0` demanded by the claim. -/
theorem find_nearest_idx_tie_cex :
    find_nearest_idx [0, 2] 1 = 1 ∧ find_nearest_idx [0, 2] 1 ≠ 0 := by
  have h : find_nearest_idx [0, 2] 1 = 1 := by
    norm_num [find_nearest_idx, searchsortedLeft, List.findIdx_cons]
  exact ⟨h, by omega⟩

/-- Claim C5 (amended, proved): on a sorted array, a query exactly halfway
between two distinct adjacent samples resolves to the UPPER of the two
candidate indices (the strict `<` in the source sends ties to
the insertion point of `searchsorted`). -/
theorem find_nearest_idx_tie_upper (l : List ℚ) (v : ℚ) (j : ℕ)
    (hs : l.Sorted (· ≤ ·)) (hj : j + 1 < l.length)
    (hlt : l.get ⟨j, by omega⟩ < l.get ⟨j + 1, hj⟩)
    (hv : v = (l.get ⟨j, by omega⟩ + l.get ⟨j + 1, hj⟩) / 2) :
    find_nearest_idx l v = j + 1 := by
  have hjlt : j < l.length := by omega
  set a := l.get ⟨j, by omega⟩ with ha
  set b := l.get ⟨j + 1, hj⟩ with hb
  have hva : a < v := by rw [hv]; linarith
  have hvb : v < b := by rw [hv]; linarith
  have hidx : searchsortedLeft l v = j + 1 := by
    unfold searchsortedLeft
    rw [List.findIdx_eq hj]
    refine ⟨?_, ?_⟩
    · have : l[j + 1] = b := by rw [hb, List.get_eq_getElem]
      rw [this]
      simp only [decide_eq_true_eq]
      exact le_of_lt hvb
    · intro k hk
      have hkj : (⟨k, by omega⟩ : Fin l.length) ≤ ⟨j, hjlt⟩ := by
        simp only [Fin.mk_le_mk]
        omega
      have hle : l.get ⟨k, by omega⟩ ≤ a := hs.rel_get_of_le hkj
      have : l[k] = l.get ⟨k, by omega⟩ := by rw [List.get_eq_getElem]
      rw [this]
      simp only [decide_eq_false_iff_not, not_le]
      linarith
  have hgd1 : l.getD j 0 = a := by
    rw [List.getD_eq_getElem _ _ hjlt, ha, List.get_eq_getElem]
  have hgd2 : l.getD (j + 1) 0 = b := by
    rw [List.getD_eq_getElem _ _ hj, hb, List.get_eq_getElem]
  have heq : v - a = b - v := by rw [hv]; ring
  have hcond : ¬(0 < j + 1 ∧ (j + 1 = l.length ∨
      |v - l.getD (j + 1 - 1) 0| < |v - l.getD (j + 1) 0|)) := by
    rintro ⟨-, hor⟩
    rcases hor with he | habs
    · omega
    · rw [show j + 1 - 1 = j by omega, hgd1, hgd2] at habs
      rw [abs_of_pos (by linarith), abs_of_neg (by linarith), heq] at habs
      simp only [neg_sub] at habs
      exact lt_irrefl _ habs
  show (if 0 < searchsortedLeft l v ∧ (searchsortedLeft l v = l.length ∨
      |v - l.getD (searchsortedLeft l v - 1) 0| < |v - l.getD (searchsortedLeft l v) 0|)
    then searchsortedLeft l v - 1 else searchsortedLeft l v) = j + 1
  rw [hidx, if_neg hcond]

/-- Witness for `C5`: the tie at `v = 1` between samples `0` and `2`. -/
theorem find_nearest_idx_tie_upper_witness :
    (0 : ℚ) < 2 ∧ find_nearest_idx [0, 2] 1 = 1 :=
  ⟨by norm_num,
   find_nearest_idx_tie_upper [0, 2] 1 0 (by simp [List.sorted_cons])
     (by norm_num) (by norm_num [List.get]) (by norm_num [List.get])⟩

/-- Claim C10 (proved): for a non-empty array `find_nearest_idx` always returns
an in-bounds index, whatever the query value; for the empty array it
returns `0`, which is out of bounds. -/
theorem find_nearest_idx_in_bounds (l : List ℚ) (v : ℚ) :
    (l ≠ [] → find_nearest_idx l v < l.length) ∧
    find_nearest_idx ([] : List ℚ) v = 0 := by
  constructor
  · intro hne
    have hpos : 0 < l.length := List.length_pos.2 hne
    have hle : searchsortedLeft l v ≤ l.length :=
      List.findIdx_le_length _
    show (if 0 < searchsortedLeft l v ∧ (searchsortedLeft l v = l.length ∨
        |v - l.getD (searchsortedLeft l v - 1) 0| < |v - l.getD (searchsortedLeft l v) 0|)
      then searchsortedLeft l v - 1 else searchsortedLeft l v) < l.length
    split
    · omega
    · rename_i h
      by_cases h0 : searchsortedLeft l v = 0
      · omega
      · have hnor : ¬(searchsortedLeft l v = l.length ∨
            |v - l.getD (searchsortedLeft l v - 1) 0| < |v - l.getD (searchsortedLeft l v) 0|) :=
          fun hor => h ⟨by omega, hor⟩
        have : searchsortedLeft l v ≠ l.length := fun he => hnor (Or.inl he)
        omega
  · simp [find_nearest_idx, searchsortedLeft]

/-- Witness for `C10`: a query above the last element of `[0, 5]`. -/
theorem find_nearest_idx_in_bounds_witness :
    ([0, 5] : List ℚ) ≠ [] ∧ find_nearest_idx [0, 5] 7 < ([0, 5] : List ℚ).length :=
  ⟨by simp, (find_nearest_idx_in_bounds [0, 5] 7).1 (by simp)⟩

/-- Elementwise `np.arccos` as applied to the correlation matrix at source
line 161 (`dd = np.arccos(cc)`).  No clipping is applied to the argument:
IEEE `arccos` yields NaN (`none`) outside `[-1, 1]` and the principal
value inside. -/
noncomputable def npArccos (c : ℝ) : Option ℝ :=
  if c < -1 ∨ 1 < c then none else some (Real.arccos c)

/-- The dissimilarity matrix of `ClusterProfiles` (source lines 158–161):
the arccos transform applied entrywise, directly, to the Pearson
correlation matrix `cc`. -/
noncomputable def distanceMatrix (cc : List (List ℝ)) : List (List (Option ℝ)) :=
  cc.map (fun r => r.map npArccos)

/-- Claim C6 (counterexample): a correlation entry slightly above `1` (as
floating-point Pearson values can be) passes unclipped into `arccos` and
produces an undefined (NaN) dissimilarity entry — so no clipping to
`[-1, 1]` happens before the transform. -/
theorem distanceMatrix_no_clip_cex :
    distanceMatrix [[(101 / 100 : ℝ)]] = [[none]] := by
  have h : npArccos (101 / 100 : ℝ) = none := by
    unfold npArccos
    rw [if_pos (Or.inr (by norm_num))]
  simp [distanceMatrix, h]

/-- Claim C6 (amended, proved): the arccos transform is applied with no
clipping; whenever every correlation entry already lies in `[-1, 1]`
(as exact Pearson correlations do) the dissimilarity entries are all
defined and lie in `[0, π]`. -/
theorem distanceMatrix_defined_in_range (cc : List (List ℝ))
    (h : ∀ r ∈ cc, ∀ c ∈ r, -1 ≤ c ∧ c ≤ 1) :
    ∀ dr ∈ distanceMatrix cc, ∀ d ∈ dr, ∃ x, d = some x ∧ 0 ≤ x ∧ x ≤ Real.pi := by
  intro dr hdr d hd
  simp only [distanceMatrix, List.mem_map] at hdr
  obtain ⟨r, hr, rfl⟩ := hdr
  simp only [List.mem_map] at hd
  obtain ⟨c, hc, rfl⟩ := hd
  obtain ⟨h1, h2⟩ := h r hr c hc
  refine ⟨Real.arccos c, ?_, Real.arccos_nonneg c, Real.arccos_le_pi c⟩
  unfold npArccos
  rw [if_neg (by push_neg; exact ⟨h1, h2⟩)]

/-- Witness for `C6`: the in-range correlation `0`. -/
theorem distanceMatrix_defined_in_range_witness :
    ∃ x, npArccos (0 : ℝ) = some x ∧ 0 ≤ x ∧ x ≤ Real.pi :=
  distanceMatrix_defined_in_range [[0]]
    (by
      intro r hr c hc
      simp only [List.mem_singleton] at hr
      subst hr
      simp only [List.mem_singleton] at hc
      subst hc
      norm_num)
    [npArccos 0] (by simp [distanceMatrix]) (npArccos 0) (by simp)

/-- Model of `pandas.Series.unique` (source lines 100, 177, 207): distinct values in
first-occurrence order. -/
def uniqueFirst : List ℕ → List ℕ
  | [] => []
  | x :: xs => x :: (uniqueFirst xs).filter (fun y => decide (y ≠ x))

theorem uniqueFirst_nodup (l : List ℕ) : (uniqueFirst l).Nodup := by
  induction l with
  | nil => exact List.nodup_nil
  | cons x xs ih =>
    refine List.Nodup.cons ?_ (ih.filter _)
    intro hx
    rcases List.mem_filter.1 hx with ⟨-, hdec⟩
    simp at hdec

theorem mem_uniqueFirst (l : List ℕ) (a : ℕ) : a ∈ uniqueFirst l ↔ a ∈ l := by
  induction l with
  | nil => simp [uniqueFirst]
  | cons x xs ih =>
    by_cases hax : a = x
    · subst hax
      simp [uniqueFirst]
    · simp only [uniqueFirst, List.mem_cons, List.mem_filter, ih, decide_eq_true_eq]
      constructor
      · rintro (h | ⟨h, -⟩)
        · exact Or.inl h
        · exact Or.inr h
      · rintro (h | h)
        · exact Or.inl h
        · exact Or.inr ⟨h, hax⟩

/-- Rows of `df` belonging to source `s` with a defined (non-NaN) slope:
selection of the rows with matching id (source line 103) followed by
removal of the rows whose slope is NaN (source line 104). -/
def validRows (df : List Row) (s : ℕ) : List Row :=
  (df.filter (fun r => decide (r.id = s))).filter (fun r => decide (r.slope ≠ none))

/-- The qualification test of `ResampleProfiles` (source lines 92, 108):
`len(slopes) >= profile_len / sqrt(2)`.  For a natural count `n` and
length `L` the real inequality `L/√2 ≤ n` is equivalent to
`L² ≤ 2·n²` (theorem `qualifies_iff`), which is the executable form
used here. -/
def qualifies (L n : ℕ) : Bool := decide (L ^ 2 ≤ 2 * n ^ 2)

theorem qualifies_iff (L n : ℕ) :
    qualifies L n = true ↔ (L : ℝ) / Real.sqrt 2 ≤ (n : ℝ) := by
  have hs2 : (0 : ℝ) < Real.sqrt 2 := Real.sqrt_pos.mpr (by norm_num)
  have hsq : Real.sqrt 2 ^ 2 = 2 := Real.sq_sqrt (by norm_num)
  have hcast : qualifies L n = true ↔ (L : ℝ) ^ 2 ≤ 2 * (n : ℝ) ^ 2 := by
    unfold qualifies
    simp only [decide_eq_true_eq]
    constructor
    · intro h; exact_mod_cast h
    · intro h; exact_mod_cast h
  rw [hcast, div_le_iff₀ hs2]
  constructor
  · intro h
    have h1 : Real.sqrt ((L : ℝ) ^ 2) ≤ Real.sqrt (2 * (n : ℝ) ^ 2) :=
      Real.sqrt_le_sqrt h
    rw [Real.sqrt_sq (Nat.cast_nonneg L)] at h1
    rw [Real.sqrt_mul (by norm_num : (0 : ℝ) ≤ 2), Real.sqrt_sq (Nat.cast_nonneg n)] at h1
    linarith
  · intro h
    calc (L : ℝ) ^ 2 ≤ ((n : ℝ) * Real.sqrt 2) ^ 2 :=
          pow_le_pow_left₀ (Nat.cast_nonneg L) h 2
    _ = 2 * (n : ℝ) ^ 2 := by rw [mul_pow, hsq]; ring

/-- The source ids of the table, in first-occurrence order
(`df.id.unique()`, source line 100). -/
def sourceIds (df : List Row) : List ℕ := uniqueFirst (df.map Row.id)

/-- The sources retained by the first loop of `ResampleProfiles`
(`final_sources`, source lines 102–111). -/
def keptSources (df : List Row) (L : ℕ) : List ℕ :=
  (sourceIds df).filter (fun s => qualifies L (validRows df s).length)

/-- The thinned table built by the first loop of `ResampleProfiles`
(`thinned_df`, successive `.append(this_df)` of the NaN-free rows of each
qualifying source, source lines 95, 110). -/
def thinnedRows (df : List Row) (L : ℕ) : List Row :=
  (keptSources df L).flatMap (fun s => validRows df s)

/-- Claim C3 (proved): a profile's source id enters the retained set of
`ResampleProfiles` iff its count of non-missing slope samples is at least
`profile_len / sqrt 2`. -/
theorem keptSources_iff_min_length (df : List Row) (L s : ℕ)
    (hs : s ∈ sourceIds df) :
    s ∈ keptSources df L ↔
      (L : ℝ) / Real.sqrt 2 ≤ ((validRows df s).length : ℝ) := by
  unfold keptSources
  rw [List.mem_filter]
  simp only [hs, true_and]
  exact qualifies_iff L _

/-- Table used in concrete checks of the qualification filter: source `1`
has three valid samples, source `2` has two, and `4/√2 ≈ 2.83` sits
between the two counts. -/
def c3df : List Row :=
  [⟨1, 0, 0, 0, some 1, none⟩, ⟨1, 1, 1, 0, some 1, none⟩,
   ⟨1, 2, 2, 0, some 1, none⟩,
   ⟨2, 0, 0, 0, some 1, none⟩, ⟨2, 1, 1, 0, some 1, none⟩]

/-- Witness for `C3`: at `profile_len = 4` the bound is `4/√2 ≈ 2.83`;
three valid samples qualify, two do not. -/
theorem keptSources_iff_min_length_witness :
    1 ∈ keptSources c3df 4 ∧ 2 ∉ keptSources c3df 4 := by
  constructor
  · refine (keptSources_iff_min_length c3df 4 1 (by decide)).mpr ?_
    rw [div_le_iff₀ (Real.sqrt_pos.mpr (by norm_num))]
    have h3 : ((validRows c3df 1).length : ℝ) = 3 := by
      rw [show (validRows c3df 1).length = 3 from by decide]
      norm_num
    rw [h3]
    push_cast
    nlinarith [Real.mul_self_sqrt (show (0:ℝ) ≤ 2 by norm_num), Real.sqrt_nonneg 2]
  · intro h
    have h2 := (keptSources_iff_min_length c3df 4 2 (by decide)).mp h
    rw [div_le_iff₀ (Real.sqrt_pos.mpr (by norm_num))] at h2
    have hl : ((validRows c3df 2).length : ℝ) = 2 := by
      rw [show (validRows c3df 2).length = 2 from by decide]
      norm_num
    rw [hl] at h2
    push_cast at h2
    nlinarith [Real.mul_self_sqrt (show (0:ℝ) ≤ 2 by norm_num), Real.sqrt_nonneg 2]

/-- Runtime errors raised by the Python source: `NameError` (`reg_df` is
never defined, source line 129), numpy's broadcast `ValueError`
(`data[i] = reg_slope` with an empty list, source line 128), and scipy's
rejection of an unknown linkage method (inside `linkage`, source
line 165). -/
inductive PyError
  | nameError
  | broadcastError
  | invalidMethod
deriving DecidableEq

/-- The per-profile body of the second loop of `ResampleProfiles`
(source lines 120–127).  The loop variable `reg_dist` — the regular grid
built at line 89 — is re-bound to the empty list at line 122 before the
inner loop `for d in reg_dist` runs, so the nearest-neighbour lookup is
never executed and the computed row is always empty. -/
def resampleRow (dists slopes : List ℚ) : List ℚ :=
  let reg_dist : List ℚ := []
  reg_dist.map (fun d => slopes.getD (find_nearest_idx dists d) 0)

/-- Function `ResampleProfiles` (source lines 73–135).  The first loop builds
`thinned_df`, `profiles` and `final_sources` (modelled by `thinnedRows` /
`keptSources`).  The second loop computes `reg_slope = resampleRow …`
(always `[]` by the shadowing above) and assigns it into a row of the
`(n_profiles, profile_len)` array `data`: for `profile_len ≠ 0` this
raises a broadcast `ValueError` on the first retained profile, and for
`profile_len = 0` the following write into the undefined `reg_df` raises a
`NameError`.  Only when no profile qualifies does the function return. -/
def ResampleProfilesE (df : List Row) (L step : ℕ) :
    Except PyError (List Row × List (List ℚ) × List ℕ) :=
  match keptSources df L with
  | [] => .ok (thinnedRows df L, [], [])
  | s :: _ =>
    let row := resampleRow ((validRows df s).map Row.dist)
      ((validRows df s).map (fun r => r.slope.getD 0))
    if row.length = L then .error .nameError else .error .broadcastError

/-- Table for the resampler bug check: one profile with three valid slope
samples, which passes the qualification filter at `profile_len = 4`. -/
def c2df : List Row :=
  [⟨1, 0, 0, 0, some 1, none⟩, ⟨1, 1, 1, 0, some 2, none⟩,
   ⟨1, 2, 2, 0, some 3, none⟩]

/-- Claim C2 (code bug): a profile that passes the qualification filter never
yields a resampled vector — the grid variable `reg_dist` is re-bound to
`[]` inside the per-profile loop, so the computed row is empty and its
assignment into the length-`profile_len` output row fails (broadcast
`ValueError`); the promised `profile_len/step` nearest-neighbour vector is
never produced. -/
theorem resampleProfiles_crash :
    ResampleProfilesE c2df 4 1 = .error .broadcastError ∧
    resampleRow ((validRows c2df 1).map Row.dist)
      ((validRows c2df 1).map (fun r => r.slope.getD 0)) = [] := by
  constructor
  · rfl
  · rfl

theorem validRows_id (df : List Row) (s : ℕ) (r : Row) (h : r ∈ validRows df s) :
    r.id = s := by
  unfold validRows at h
  rcases List.mem_filter.1 h with ⟨h1, -⟩
  rcases List.mem_filter.1 h1 with ⟨-, h2⟩
  simpa using h2

theorem validRows_ne_nil (df : List Row) (L s : ℕ) (hL : 1 ≤ L)
    (h : s ∈ keptSources df L) : validRows df s ≠ [] := by
  rcases List.mem_filter.1 h with ⟨-, hq⟩
  unfold qualifies at hq
  simp only [decide_eq_true_eq] at hq
  intro hnil
  rw [hnil] at hq
  have hL0 : L ^ 2 = 0 := Nat.le_zero.mp (by simpa using hq)
  rw [pow_two] at hL0
  rcases Nat.mul_eq_zero.mp hL0 with h0 | h0 <;> omega

theorem keptSources_nodup (df : List Row) (L : ℕ) : (keptSources df L).Nodup :=
  (uniqueFirst_nodup _).filter _

theorem filter_ne_cons_self (s : ℕ) (l : List ℕ) :
    (s :: l).filter (fun y => decide (y ≠ s)) = l.filter (fun y => decide (y ≠ s)) := by
  rw [List.filter_cons]
  simp

theorem filter_ne_idem (s : ℕ) (l : List ℕ) :
    (l.filter (fun y => decide (y ≠ s))).filter (fun y => decide (y ≠ s)) =
      l.filter (fun y => decide (y ≠ s)) := by
  rw [List.filter_filter]
  congr 1
  funext y
  rw [Bool.and_self]

theorem uniqueFirst_const_append (s : ℕ) (block rest : List ℕ) (hb : block ≠ [])
    (hall : ∀ x ∈ block, x = s) :
    uniqueFirst (block ++ rest) =
      s :: (uniqueFirst rest).filter (fun y => decide (y ≠ s)) := by
  induction block with
  | nil => exact absurd rfl hb
  | cons x block ih =>
    have hx : x = s := hall x (List.mem_cons_self x block)
    subst hx
    by_cases hb2 : block = []
    · subst hb2
      simp [uniqueFirst]
    · simp only [List.cons_append, uniqueFirst]
      rw [List.append_eq, ih hb2 (fun y hy => hall y (List.mem_cons_of_mem _ hy))]
      congr 1
      rw [filter_ne_cons_self, filter_ne_idem]

theorem uniqueFirst_flatMap_blocks (ks : List ℕ) (f : ℕ → List ℕ)
    (hnd : ks.Nodup) (hne : ∀ s ∈ ks, f s ≠ [])
    (hall : ∀ s ∈ ks, ∀ x ∈ f s, x = s) :
    uniqueFirst (ks.flatMap f) = ks := by
  induction ks with
  | nil => rfl
  | cons s ks ih =>
    rw [List.flatMap_cons]
    rw [uniqueFirst_const_append s (f s) _ (hne s (List.mem_cons_self s ks))
      (hall s (List.mem_cons_self s ks))]
    rw [ih (List.Nodup.of_cons hnd)
      (fun t ht => hne t (List.mem_cons_of_mem _ ht))
      (fun t ht => hall t (List.mem_cons_of_mem _ ht))]
    congr 1
    apply List.filter_eq_self.mpr
    intro x hx
    have hsx : s ∉ ks := (List.nodup_cons.mp hnd).1
    simp only [decide_eq_true_eq, ne_eq]
    intro hxe
    exact hsx (hxe ▸ hx)

/-- One full pass of the label-assignment loop of `ClusterProfiles`
(source lines 188–189) over a single row: each `(source_id, label)` pair,
in order, overwrites the row's `cluster_id` if its id matches. -/
def applyPairs (pairs : List (ℕ × ℕ)) (r : Row) : Row :=
  pairs.foldl
    (fun r sc => if r.id = sc.1 then { r with cluster := some sc.2 } else r) r

/-- The label-assignment loop of `ClusterProfiles` (source lines 188–189):
`for i, id in enumerate(source_ids): thinned_df.loc[thinned_df.id == id,
cluster_id] = cl[i]` — each enumerated pair updates the whole table. -/
def assignPairs (rows : List Row) (pairs : List (ℕ × ℕ)) : List Row :=
  pairs.foldl
    (fun acc sc =>
      acc.map (fun r => if r.id = sc.1 then { r with cluster := some sc.2 } else r))
    rows

/-- The cluster-assignment stage of `ClusterProfiles` (source lines
177–192): `source_ids = thinned_df.id.unique()` and the assignment
loop, parameterised by the flat-cluster labels `cl` (one per resampled
profile, produced by `fcluster`). -/
def ClusterAssign (df : List Row) (L : ℕ) (cl : List ℕ) : List Row :=
  assignPairs (thinnedRows df L)
    ((uniqueFirst ((thinnedRows df L).map Row.id)).zip cl)

theorem assignPairs_eq_map (pairs : List (ℕ × ℕ)) (rows : List Row) :
    assignPairs rows pairs = rows.map (applyPairs pairs) := by
  induction pairs generalizing rows with
  | nil =>
    show rows = rows.map (applyPairs [])
    rw [show applyPairs ([] : List (ℕ × ℕ)) = id from rfl, List.map_id]
  | cons p ps ih =>
    show assignPairs (rows.map _) ps = _
    rw [ih, List.map_map]
    rfl

theorem applyPairs_preserves_id (pairs : List (ℕ × ℕ)) (r : Row) :
    (applyPairs pairs r).id = r.id := by
  induction pairs generalizing r with
  | nil => rfl
  | cons p ps ih =>
    show (applyPairs ps _).id = r.id
    rw [ih]
    dsimp only
    split <;> rfl

theorem applyPairs_of_not_mem (pairs : List (ℕ × ℕ)) (r : Row)
    (h : ∀ p ∈ pairs, p.1 ≠ r.id) : applyPairs pairs r = r := by
  induction pairs generalizing r with
  | nil => rfl
  | cons p ps ih =>
    show applyPairs ps _ = r
    dsimp only
    rw [if_neg (fun he => h p (List.mem_cons_self p ps) he.symm)]
    exact ih r (fun q hq => h q (List.mem_cons_of_mem _ hq))

theorem applyPairs_assign (ks : List ℕ) (cl : List ℕ) (r : Row)
    (hnd : ks.Nodup) (hmem : r.id ∈ ks) (hlen : cl.length = ks.length) :
    applyPairs (ks.zip cl) r =
      { r with cluster := some (cl.getD (ks.indexOf r.id) 0) } := by
  induction ks generalizing cl r with
  | nil => simp at hmem
  | cons k ks ih =>
    cases cl with
    | nil => simp at hlen
    | cons c cl =>
      rw [List.zip_cons_cons]
      by_cases hk : r.id = k
      · have h1 : applyPairs ((k, c) :: ks.zip cl) r =
            applyPairs (ks.zip cl) { r with cluster := some c } := by
          show applyPairs (ks.zip cl) _ = _
          dsimp only
          rw [if_pos hk]
        rw [h1, applyPairs_of_not_mem]
        · rw [List.indexOf_cons_eq ks hk.symm]
          rfl
        · intro p hp he
          have hpk : p.1 ∈ ks := (List.of_mem_zip hp).1
          have hpke : p.1 = k := by rw [he]; exact hk
          exact (List.nodup_cons.mp hnd).1 (hpke ▸ hpk)
      · have h1 : applyPairs ((k, c) :: ks.zip cl) r = applyPairs (ks.zip cl) r := by
          show applyPairs (ks.zip cl) _ = _
          dsimp only
          rw [if_neg hk]
        rw [h1, ih cl r (List.Nodup.of_cons hnd)
          (by rcases List.mem_cons.mp hmem with h | h; exact absurd h hk; exact h)
          (by simpa using hlen)]
        rw [List.indexOf_cons_ne ks (fun he => hk he.symm)]
        rfl

/-- Claim C7 (proved): the retained source ids of the thinned table are exactly
`final_sources` in order, every row of the labelled output carries the
cluster label `cl[i]` of its own source's position `i` in that list, and
every retained source is represented in the output; rows of dropped
sources never appear. -/
theorem clusterAssign_labels (df : List Row) (L : ℕ) (cl : List ℕ)
    (hL : 1 ≤ L) (hcl : cl.length = (keptSources df L).length) :
    uniqueFirst ((thinnedRows df L).map Row.id) = keptSources df L ∧
    (∀ r ∈ ClusterAssign df L cl,
      r.id ∈ keptSources df L ∧
      r.cluster = some (cl.getD ((keptSources df L).indexOf r.id) 0)) ∧
    (∀ s ∈ keptSources df L, ∃ r ∈ ClusterAssign df L cl, r.id = s) := by
  have halign : uniqueFirst ((thinnedRows df L).map Row.id) = keptSources df L := by
    unfold thinnedRows
    rw [List.map_flatMap]
    exact uniqueFirst_flatMap_blocks _ _ (keptSources_nodup df L)
      (fun s hs => by
        simp only [ne_eq, List.map_eq_nil_iff]
        exact validRows_ne_nil df L s hL hs)
      (fun s hs x hx => by
        rcases List.mem_map.1 hx with ⟨r, hr, rfl⟩
        exact validRows_id df s r hr)
  refine ⟨halign, ?_, ?_⟩
  · intro r hr
    unfold ClusterAssign at hr
    rw [halign, assignPairs_eq_map] at hr
    rcases List.mem_map.1 hr with ⟨r0, hr0, rfl⟩
    unfold thinnedRows at hr0
    rcases List.mem_flatMap.1 hr0 with ⟨s, hs, hval⟩
    have hid0 : r0.id = s := validRows_id df s r0 hval
    have hmem : r0.id ∈ keptSources df L := hid0 ▸ hs
    rw [applyPairs_assign _ _ _ (keptSources_nodup df L) hmem hcl]
    exact ⟨hmem, rfl⟩
  · intro s hs
    have hne := validRows_ne_nil df L s hL hs
    rcases List.exists_mem_of_ne_nil _ hne with ⟨r0, hr0⟩
    refine ⟨applyPairs ((keptSources df L).zip cl) r0, ?_, ?_⟩
    · unfold ClusterAssign
      rw [halign, assignPairs_eq_map]
      exact List.mem_map_of_mem _ (List.mem_flatMap.2 ⟨s, hs, hr0⟩)
    · rw [applyPairs_preserves_id]
      exact validRows_id df s r0 hr0

/-- Witness for `C7`: in `c3df` with `profile_len = 2` both sources are
retained (`final_sources = [1, 2]`) and with labels `[5, 9]` the first
row of source `1` carries label `5`. -/
theorem clusterAssign_labels_witness :
    1 ≤ 2 ∧
    (⟨1, 0, 0, 0, some 1, some 5⟩ : Row).id ∈ keptSources c3df 2 ∧
    (⟨1, 0, 0, 0, some 1, some 5⟩ : Row).cluster =
      some (([5, 9] : List ℕ).getD
        ((keptSources c3df 2).indexOf (⟨1, 0, 0, 0, some 1, some 5⟩ : Row).id) 0) := by
  have h := (clusterAssign_labels c3df 2 [5, 9] (by norm_num) (by decide)).2.1
    (⟨1, 0, 0, 0, some 1, some 5⟩ : Row) (by decide)
  exact ⟨by norm_num, h.1, h.2⟩

/-- The linkage method names accepted by
`scipy.cluster.hierarchy.linkage` (referenced in the docstring at source
lines 148–149); any other name makes `linkage` raise a `ValueError`. -/
def validMethods : List String :=
  ["single", "complete", "average", "weighted", "centroid", "median", "ward"]

/-- The computation stages of `ClusterProfiles` in statement order
(source lines 154–189): `ResampleProfiles`, `Pearson`, `np.arccos`,
`linkage`, `fcluster`, label assignment. -/
inductive Stage
  | resample
  | correlate
  | distance
  | linkage
  | fcluster
  | assign
deriving DecidableEq

/-- Function `ClusterProfiles` (source lines 137–192) as a stage trace: the list of
stages that execute, paired with the error aborting the run (if any).
`ResampleProfiles` is called first (line 154), unconditionally; the
correlation `cc = Pearson(data)` (line 158) and the distance transform
`dd = np.arccos(cc)` (line 161) are total numeric computations; the
method name is inspected for the first time inside `linkage(dd,
method=method)` (line 165), which rejects unknown names. -/
def clusterProfilesRun (df : List Row) (L step : ℕ) (method : String) :
    List Stage × Option PyError :=
  match ResampleProfilesE df L step with
  | .error e => ([.resample], some e)
  | .ok _ =>
    if method ∈ validMethods then
      ([.resample, .correlate, .distance, .linkage, .fcluster, .assign], none)
    else
      ([.resample, .correlate, .distance], some .invalidMethod)

/-- Table for the fail-fast check: its only profile has no valid slope
sample, so no profile qualifies and `ResampleProfiles` returns normally
with an empty data matrix. -/
def c8df : List Row := [⟨5, 0, 0, 0, none, none⟩]

/-- Claim C8 (counterexample): with the unrecognized method name `"bogus"`,
`ClusterProfiles` still performs resampling (and the correlation and
distance stages) before the method name is first inspected and rejected
inside `linkage` — the configuration error is not reported before
computation proceeds. -/
theorem clusterProfiles_no_fail_fast_cex :
    "bogus" ∉ validMethods ∧
    Stage.resample ∈ (clusterProfilesRun c8df 100 1 "bogus").1 ∧
    Stage.distance ∈ (clusterProfilesRun c8df 100 1 "bogus").1 ∧
    (clusterProfilesRun c8df 100 1 "bogus").2 = some PyError.invalidMethod := by
  refine ⟨by decide, ?_, ?_, ?_⟩ <;> decide

/-- Claim C8 (amended, proved): an unrecognized linkage method never aborts
the pipeline before computation: the resample stage always runs first,
and the run then terminates with an error (the `linkage` rejection when
resampling returns, or the resampler's own crash). -/
theorem clusterProfiles_method_checked_late (df : List Row) (L step : ℕ)
    (method : String) (hm : method ∉ validMethods) :
    (clusterProfilesRun df L step method).1.head? = some Stage.resample ∧
    (clusterProfilesRun df L step method).2.isSome := by
  unfold clusterProfilesRun
  cases h : ResampleProfilesE df L step with
  | error e => exact ⟨rfl, rfl⟩
  | ok x =>
    rw [if_neg hm]
    exact ⟨rfl, rfl⟩

/-- Witness for `C8`: the method `"bogus"` on `c8df`. -/
theorem clusterProfiles_method_checked_late_witness :
    "bogus" ∉ validMethods ∧
    (clusterProfilesRun c8df 100 1 "bogus").1.head? = some Stage.resample :=
  ⟨by decide,
   (clusterProfiles_method_checked_late c8df 100 1 "bogus" (by decide)).1⟩

/-- Result of calling a Python function that may mutate its argument:
`ret` is the returned object, `arg` the state of the caller's argument
after the call. -/
structure CallResult where
  ret : List Row
  arg : List Row
deriving DecidableEq

/-- The `(distance, elevation)` points of one id-group, in row order
(source lines 209–213). -/
def groupPts (df : List Row) (s : ℕ) : List (ℚ × ℚ) :=
  (df.filter (fun r => decide (r.id = s))).map (fun r => (r.dist, r.elev))

/-- Slope-assignment statement of source line 231 (`df.loc` with the matching id): the
computed slope list is written positionally into the rows of the matching
group, in row order. -/
def assignSlopes : List Row → ℕ → List (Option ℚ) → List Row
  | [], _, _ => []
  | r :: rs, s, ss =>
    if r.id = s then { r with slope := ss.headD none } :: assignSlopes rs s ss.tail
    else r :: assignSlopes rs s ss

/-- The table state produced by the loop of `CalculateSlope`
(source lines 207–231): for each id in first-occurrence order, the
group's windowed-regression slopes are written into the table. -/
def calculateSlopeTable (df : List Row) (W : ℕ) : List Row :=
  (uniqueFirst (df.map Row.id)).foldl
    (fun acc s => assignSlopes acc s (calculateSlopeProfile (groupPts acc s) W)) df

/-- Function `CalculateSlope` (source lines 194–235).  The `.loc` assignment at
line 231 writes into the caller's dataframe object and `return df`
(line 235) returns that same object, so the returned table and the
argument's post-call state coincide. -/
def CalculateSlope (df : List Row) (W : ℕ) : CallResult :=
  { ret := calculateSlopeTable df W, arg := calculateSlopeTable df W }

/-- Table for the mutation check: one profile of three rows with no slope
column values. -/
def c9df : List Row :=
  [⟨1, 0, 0, 0, none, none⟩, ⟨1, 1, 1, 0, none, none⟩, ⟨1, 2, 2, 0, none, none⟩]

/-- Claim C9 (counterexample): after `CalculateSlope` returns, the dataframe
that was passed in is NOT unchanged — the slope column has been written
into it in place. -/
theorem calculateSlope_mutates_cex : (CalculateSlope c9df 3).arg ≠ c9df := by
  have harg : (CalculateSlope c9df 3).arg =
      [⟨1, 0, 0, 0, none, none⟩, ⟨1, 1, 1, 0, some 1, none⟩,
       ⟨1, 2, 2, 0, none, none⟩] := by
    norm_num [CalculateSlope, calculateSlopeTable, c9df, uniqueFirst, groupPts,
      assignSlopes, calculateSlopeProfile, calculateSlopeAt, pySlice, pyIdx, pyAbs,
      linregressSlope, List.range_succ, show Int.toNat 3 = 3 from rfl]
  rw [harg]
  intro h
  simp [c9df, Row.mk.injEq] at h

/-- Claim C9 (amended, proved): `CalculateSlope` updates its input table in
place — the caller's dataframe after the call is exactly the returned
table — and in general (e.g. on `c9df`) that post-call state differs from
the table that was passed in. -/
theorem calculateSlope_inplace (df : List Row) (W : ℕ) :
    (CalculateSlope df W).arg = (CalculateSlope df W).ret ∧
    (CalculateSlope c9df 3).ret ≠ c9df := by
  refine ⟨rfl, ?_⟩
  have harg : (CalculateSlope c9df 3).ret =
      [⟨1, 0, 0, 0, none, none⟩, ⟨1, 1, 1, 0, some 1, none⟩,
       ⟨1, 2, 2, 0, none, none⟩] := by
    norm_num [CalculateSlope, calculateSlopeTable, c9df, uniqueFirst, groupPts,
      assignSlopes, calculateSlopeProfile, calculateSlopeAt, pySlice, pyIdx, pyAbs,
      linregressSlope, List.range_succ, show Int.toNat 3 = 3 from rfl]
  rw [harg]
  intro h
  simp [c9df, Row.mk.injEq] at h

end RiverClusters
